import Mathlib

/-!
Shallow embedding of `qr_local_decoder.py`.

The script decodes QR codes from image files: it first tries the OpenCV
backend (`try_decode_opencv`), falls back to the ZXing backend
(`try_decode_zxing`) when OpenCV yields nothing, deduplicates and filters
the raw backend strings, orders the decoded texts URL-first, prints them
and optionally copies the first one to the clipboard (`main`).

External library calls (cv2, zxingcpp, PIL, pyperclip, the `re` regex
engine, the filesystem) are modelled as environment records: an
exceptional outcome of a call is an explicit `none` value, and the
URL-regex match is an abstract predicate `String → Bool`.
-/

namespace QrLocalDecoder

/-- Environment of one `try_decode_opencv` call.  `multiResult` is the outcome of
`det.detectAndDecodeMulti(img)`: `none` models a raised exception, `some (retval,
decoded_info)` a normal return.  `singleResult` is the outcome of
`det.detectAndDecode(img)`: `none` an exception, `some t` a return whose decoded
text `t` may be Python `None` (`Option.none`). `imgLoaded` is `img is not None`. -/
structure OpenCVEnv where
  cv2Available : Bool
  imgLoaded : Bool
  multiResult : Option (Bool × List String)
  singleResult : Option (Option String)

/-- Loop body of the filter/dedup pass shared by both decoders:
`for t in texts_raw: if t and (t not in seen): seen.add(t); out.append(t)`.
The pair is `(seen, out)`. -/
def dedupPair : List String → List String × List String → List String × List String
  | [], p => p
  | t :: ts, p =>
    if t ≠ "" ∧ t ∉ p.1 then dedupPair ts (t :: p.1, p.2 ++ [t])
    else dedupPair ts p

/-- Raw text list `texts_raw` accumulated by `try_decode_opencv` before the
filter/dedup pass: the multi-decode results when `retval and decoded_info`,
otherwise the single-decode text when it is not Python `None`. -/
def opencvRaw (env : OpenCVEnv) : List String :=
  let texts1 :=
    match env.multiResult with
    | some (retval, info) => if retval = true ∧ info ≠ [] then info else []
    | none => []
  if texts1 = [] then
    match env.singleResult with
    | some (some t) => [t]
    | _ => []
  else texts1

/-- Model of `try_decode_opencv`: returns `[]` when OpenCV is unavailable or the
image failed to load, otherwise the filtered and deduplicated raw texts. -/
def try_decode_opencv (env : OpenCVEnv) : List String :=
  if ¬env.cv2Available ∨ ¬env.imgLoaded then []
  else (dedupPair (opencvRaw env) ([], [])).2

/-- Environment of one `try_decode_zxing` call.  `results` is the outcome of
`zxingcpp.read_barcodes(pil_img)`: `none` models a raised exception, `some rs` a
normal return where each element is `getattr(r, "text", None)`. -/
structure ZXingEnv where
  zxingAvailable : Bool
  pilLoaded : Bool
  results : Option (List (Option String))

/-- Loop of `try_decode_zxing` over the barcode results:
`if s and s not in seen: seen.add(s); out.append(s)` where a missing text
(`None`) is falsy. -/
def zxingPair : List (Option String) → List String × List String → List String × List String
  | [], p => p
  | none :: rs, p => zxingPair rs p
  | some t :: rs, p =>
    if t ≠ "" ∧ t ∉ p.1 then zxingPair rs (t :: p.1, p.2 ++ [t])
    else zxingPair rs p

/-- Model of `try_decode_zxing`: `[]` when the library or the PIL image is
unavailable or `read_barcodes` raises, otherwise the deduplicated result texts. -/
def try_decode_zxing (env : ZXingEnv) : List String :=
  if ¬(env.zxingAvailable ∧ env.pilLoaded) then []
  else
    match env.results with
    | none => []
    | some rs => (zxingPair rs ([], [])).2

/-- Raw text list of the ZXing backend, with a missing text rendered as `""`
(both are falsy in the source loop). -/
def zxingRaw (env : ZXingEnv) : List String :=
  match env.results with
  | none => []
  | some rs => rs.map (fun o => o.getD "")

/-- Per-file decoding environment: what the two backends would return for this
image path. -/
structure FileEnv where
  opencv : OpenCVEnv
  zxing : ZXingEnv

/-- Model of `decode_from_image_path`: OpenCV first, ZXing only when OpenCV
yields an empty list. -/
def decode_from_image_path (env : FileEnv) : List String :=
  let texts := try_decode_opencv env.opencv
  if texts ≠ [] then texts
  else try_decode_zxing env.zxing

/-- The two decoding backends. -/
inductive Backend where
  | opencv
  | zxing
deriving DecidableEq

/-- Same control flow as `decode_from_image_path`, additionally recording which
backends are invoked, in order. -/
def decodeTrace (env : FileEnv) : List String × List Backend :=
  let texts := try_decode_opencv env.opencv
  if texts ≠ [] then (texts, [Backend.opencv])
  else (try_decode_zxing env.zxing, [Backend.opencv, Backend.zxing])

/-- URL-first ordering of `main`: `urls = [t for t in texts if is_url(t)]`,
`rest = [t for t in texts if t not in urls]`, `ordered = urls + rest`.  The
URL-regex match `is_url` is the abstract predicate `isUrl`. -/
def orderTexts (isUrl : String → Bool) (texts : List String) : List String :=
  let urls := texts.filter isUrl
  let rest := texts.filter (fun t => decide (t ∉ urls))
  urls ++ rest

/-- Environment of one file-mode run of `main`: the filesystem (`pathExists`),
the per-path backend behaviour (`fileEnv`), the URL-regex match (`isUrl`), and
the clipboard library (`pyperclipAvailable`; `clipboardOk` is whether
`pyperclip.copy` succeeds rather than raising). -/
structure World where
  pathExists : String → Bool
  fileEnv : String → FileEnv
  isUrl : String → Bool
  pyperclipAvailable : Bool
  clipboardOk : Bool

/-- First loop of `main`: returns the `"<path>: not found"` stderr lines and
`all_results`, the `(path, texts)` pairs of the existing paths, in order. -/
def gather (w : World) : List String → List String × List (String × List String)
  | [] => ([], [])
  | path :: ps =>
    let rest := gather w ps
    if w.pathExists path then
      (rest.1, (path, decode_from_image_path (w.fileEnv path)) :: rest.2)
    else
      ((path ++ ": not found") :: rest.1, rest.2)

/-- Observable outcome of a file-mode run: stdout lines, stderr lines, the
sequence of strings passed to `pyperclip.copy`, and the exit code. -/
structure Report where
  stdout : List String
  stderr : List String
  clipboard : List String
  exitCode : Nat

/-- Second loop of `main` over `all_results`: prints `"<path>: no QR found"`
and raises the exit code to 4 for an empty text list, otherwise prints the
URL-first ordered texts (with a `--- <path> ---` header when several files were
gathered) and, under `--copy` with pyperclip available, passes `ordered[0]` to
`pyperclip.copy`, warning on stderr when the copy raises. -/
def report (w : World) («copy» multi : Bool) : List (String × List String) → Report
  | [] => ⟨[], [], [], 0⟩
  | (path, texts) :: rest =>
    let r := report w copy multi rest
    if texts = [] then
      ⟨(path ++ ": no QR found") :: r.stdout, r.stderr, r.clipboard, max 4 r.exitCode⟩
    else
      let ordered := orderTexts w.isUrl texts
      let hdr := if multi = true then ["--- " ++ path ++ " ---"] else []
      let clip := if copy = true ∧ w.pyperclipAvailable = true then ordered.head?.toList else []
      let warnLines :=
        if copy = true ∧ w.pyperclipAvailable = true ∧ w.clipboardOk = false then
          ["[WARN] Failed to copy to clipboard"]
        else []
      ⟨hdr ++ ordered ++ r.stdout, warnLines ++ r.stderr, clip ++ r.clipboard, r.exitCode⟩

/-- Model of `main(argv)` in file mode (`--webcam` absent): with no paths it
prints the help text and exits 1; otherwise it gathers the existing paths'
decode results and reports them.  Stdout and stderr are modelled as separate
streams; the help text itself is elided. -/
def mainFile (paths : List String) («copy» : Bool) (w : World) : Report :=
  if paths = [] then ⟨[], [], [], 1⟩
  else
    let g := gather w paths
    let r := report w copy (decide (g.2.length > 1)) g.2
    ⟨r.stdout, g.1 ++ r.stderr, r.clipboard, r.exitCode⟩

/-- Specification-side recursion computing the dedup loop's output directly:
the non-empty strings not yet seen, in order of first occurrence. -/
def firstOccur : List String → List String → List String
  | [], _ => []
  | t :: ts, seen =>
    if t ≠ "" ∧ t ∉ seen then t :: firstOccur ts (t :: seen)
    else firstOccur ts seen

/-- What the claims ask of the filter/dedup pass: no empty string, no
duplicates, exactly the non-empty raw strings, ordered by first occurrence in
the raw list. -/
def dedupOutputSpec (raw out : List String) : Prop :=
  "" ∉ out ∧ out.Nodup ∧ (∀ t, t ∈ out ↔ t ∈ raw ∧ t ≠ "") ∧
  out.Pairwise (fun a b => raw.indexOf a < raw.indexOf b)

/-- Concrete OpenCV environment whose multi-decode finds two texts. -/
def envOEx : OpenCVEnv := ⟨true, true, some (true, ["hello", "www.x.com"]), none⟩

/-- Concrete ZXing environment with a duplicate, a missing and an empty text. -/
def envZEx : ZXingEnv := ⟨true, true, some [some "x", none, some "x", some ""]⟩

/-- OpenCV environment with the library unavailable. -/
def envOEmpty : OpenCVEnv := ⟨false, false, none, none⟩

/-- ZXing environment with the library unavailable. -/
def envZEmpty : ZXingEnv := ⟨false, false, none⟩

/-- File environment where OpenCV succeeds. -/
def fileEnvEx : FileEnv := ⟨envOEx, envZEx⟩

/-- File environment where both backends yield nothing. -/
def fileEnvEmpty : FileEnv := ⟨envOEmpty, envZEmpty⟩

/-- Concrete world: only `a.png` exists and decodes to two texts. -/
def wEx : World :=
  ⟨fun p => decide (p = "a.png"), fun _ => fileEnvEx,
    fun t => decide (t = "www.x.com"), true, true⟩

/-- Concrete world: every path exists but decodes to nothing. -/
def wEmpty : World :=
  ⟨fun _ => true, fun _ => fileEnvEmpty,
    fun t => decide (t = "www.x.com"), true, true⟩

theorem dedupPair_snd (ts : List String) : ∀ seen out,
    (dedupPair ts (seen, out)).2 = out ++ firstOccur ts seen := by
  induction ts with
  | nil => intro seen out; simp [dedupPair, firstOccur]
  | cons t ts ih =>
    intro seen out
    by_cases h : t ≠ "" ∧ t ∉ seen
    · simp [dedupPair, firstOccur, h, ih]
    · simp [dedupPair, firstOccur, h, ih]

theorem mem_firstOccur (ts : List String) : ∀ seen a,
    a ∈ firstOccur ts seen ↔ a ∈ ts ∧ a ≠ "" ∧ a ∉ seen := by
  induction ts with
  | nil => intro seen a; simp [firstOccur]
  | cons t ts ih =>
    intro seen a
    by_cases h : t ≠ "" ∧ t ∉ seen
    · rw [firstOccur, if_pos h]
      simp only [List.mem_cons, ih]
      constructor
      · rintro (rfl | ⟨hts, hne, hnseen⟩)
        · exact ⟨Or.inl rfl, h.1, h.2⟩
        · exact ⟨Or.inr hts, hne, fun hc => hnseen (Or.inr hc)⟩
      · rintro ⟨rfl | hts, hne, hns⟩
        · exact Or.inl rfl
        · by_cases hat : a = t
          · exact Or.inl hat
          · exact Or.inr ⟨hts, hne, fun hc => hc.elim hat hns⟩
    · rw [firstOccur, if_neg h]
      rw [ih]
      simp only [List.mem_cons]
      constructor
      · rintro ⟨hts, hne, hns⟩; exact ⟨Or.inr hts, hne, hns⟩
      · rintro ⟨rfl | hts, hne, hns⟩
        · exfalso
          rcases not_and_or.1 h with h1 | h2
          · exact hne (not_not.1 h1)
          · exact hns (not_not.1 h2)
        · exact ⟨hts, hne, hns⟩

theorem nodup_firstOccur (ts : List String) : ∀ seen, (firstOccur ts seen).Nodup := by
  induction ts with
  | nil => intro seen; simp [firstOccur]
  | cons t ts ih =>
    intro seen
    by_cases h : t ≠ "" ∧ t ∉ seen
    · rw [firstOccur, if_pos h, List.nodup_cons]
      refine ⟨fun hc => ?_, ih _⟩
      rcases (mem_firstOccur ts (t :: seen) t).1 hc with ⟨-, -, hns⟩
      exact hns (List.mem_cons_self t seen)
    · rw [firstOccur, if_neg h]; exact ih seen

theorem pairwise_firstOccur (ts : List String) : ∀ seen,
    (firstOccur ts seen).Pairwise (fun a b => ts.indexOf a < ts.indexOf b) := by
  induction ts with
  | nil => intro seen; simp [firstOccur]
  | cons t ts ih =>
    intro seen
    have step : ∀ seen' b, b ∈ firstOccur ts seen' → t ∈ seen' →
        b ≠ t := by
      intro seen' b hb hts hc
      rcases (mem_firstOccur ts seen' b).1 hb with ⟨-, -, hns⟩
      exact hns (hc ▸ hts)
    by_cases h : t ≠ "" ∧ t ∉ seen
    · rw [firstOccur, if_pos h, List.pairwise_cons]
      constructor
      · intro b hb
        have hbt : b ≠ t := step (t :: seen) b hb (List.mem_cons_self t seen)
        rw [List.indexOf_cons_self, List.indexOf_cons_ne ts (fun hc => hbt hc.symm)]
        exact Nat.succ_pos _
      · refine List.Pairwise.imp_of_mem ?_ (ih (t :: seen))
        intro a b ha hb hab
        have hat : a ≠ t := step (t :: seen) a ha (List.mem_cons_self t seen)
        have hbt : b ≠ t := step (t :: seen) b hb (List.mem_cons_self t seen)
        rw [List.indexOf_cons_ne ts (fun hc => hat hc.symm),
          List.indexOf_cons_ne ts (fun hc => hbt hc.symm)]
        exact Nat.succ_lt_succ hab
    · rw [firstOccur, if_neg h]
      refine List.Pairwise.imp_of_mem ?_ (ih seen)
      intro a b ha hb hab
      have hne : ∀ c, c ∈ firstOccur ts seen → c ≠ t := by
        intro c hc hct
        rcases (mem_firstOccur ts seen c).1 hc with ⟨-, hcne, hcns⟩
        rcases not_and_or.1 h with h1 | h2
        · exact hcne (hct.trans (not_not.1 h1))
        · exact hcns (hct ▸ not_not.1 h2)
      rw [List.indexOf_cons_ne ts (fun hc => (hne a ha) hc.symm),
        List.indexOf_cons_ne ts (fun hc => (hne b hb) hc.symm)]
      exact Nat.succ_lt_succ hab

theorem dedupOutputSpec_firstOccur (raw : List String) :
    dedupOutputSpec raw (firstOccur raw []) := by
  refine ⟨fun hc => ?_, nodup_firstOccur raw [], fun t => ?_, pairwise_firstOccur raw []⟩
  · rcases (mem_firstOccur raw [] "").1 hc with ⟨-, hne, -⟩
    exact hne rfl
  · rw [mem_firstOccur]
    simp

theorem zxingPair_eq_dedupPair (rs : List (Option String)) : ∀ p,
    zxingPair rs p = dedupPair (rs.map (fun o => o.getD "")) p := by
  induction rs with
  | nil => intro p; simp [zxingPair, dedupPair]
  | cons o rs ih =>
    intro p
    match o with
    | none => simp [zxingPair, dedupPair, ih]
    | some t =>
      by_cases h : t ≠ "" ∧ t ∉ p.1
      · simp [zxingPair, dedupPair, h, ih]
      · simp [zxingPair, dedupPair, h, ih]

theorem try_decode_opencv_eq (env : OpenCVEnv)
    (hcv : env.cv2Available = true) (himg : env.imgLoaded = true) :
    try_decode_opencv env = firstOccur (opencvRaw env) [] := by
  rw [try_decode_opencv, if_neg (by simp [hcv, himg]), dedupPair_snd]
  simp

theorem try_decode_zxing_eq (env : ZXingEnv)
    (hz : env.zxingAvailable = true) (hp : env.pilLoaded = true) :
    try_decode_zxing env = firstOccur (zxingRaw env) [] := by
  rw [try_decode_zxing, if_neg (by simp [hz, hp])]
  match hr : env.results with
  | none => simp [zxingRaw, hr, firstOccur]
  | some rs =>
    show (zxingPair rs ([], [])).2 = _
    rw [zxingPair_eq_dedupPair, dedupPair_snd, zxingRaw, hr]
    simp

theorem orderTexts_eq (isUrl : String → Bool) (texts : List String) :
    orderTexts isUrl texts =
      texts.filter isUrl ++ texts.filter (fun t => !(isUrl t)) := by
  show texts.filter isUrl ++
      texts.filter (fun t => decide (t ∉ texts.filter isUrl)) = _
  congr 1
  refine List.filter_congr ?_
  intro x hx
  by_cases h : isUrl x = true
  · simp [List.mem_filter, hx, h]
  · simp [List.mem_filter, hx, h]

theorem orderTexts_perm (isUrl : String → Bool) (texts : List String) :
    List.Perm (orderTexts isUrl texts) texts := by
  rw [orderTexts_eq]
  exact List.filter_append_perm isUrl texts

theorem orderTexts_ne_nil (isUrl : String → Bool) (texts : List String)
    (h : texts ≠ []) : orderTexts isUrl texts ≠ [] := by
  intro hc
  have := (orderTexts_perm isUrl texts).length_eq
  rw [hc] at this
  exact h (List.eq_nil_of_length_eq_zero this.symm)

theorem gather_snd (w : World) (paths : List String) :
    (gather w paths).2 = (paths.filter w.pathExists).map
      (fun p => (p, decode_from_image_path (w.fileEnv p))) := by
  induction paths with
  | nil => simp [gather]
  | cons path ps ih =>
    by_cases h : w.pathExists path = true
    · simp [gather, h, ih]
    · simp [gather, h, ih]

theorem gather_fst (w : World) (paths : List String) :
    (gather w paths).1 = (paths.filter (fun p => !(w.pathExists p))).map
      (fun p => p ++ ": not found") := by
  induction paths with
  | nil => simp [gather]
  | cons path ps ih =>
    by_cases h : w.pathExists path = true
    · simp [gather, h, ih]
    · simp [gather, h, ih]

theorem report_exitCode (w : World) («copy» multi : Bool)
    (rs : List (String × List String)) :
    (report w copy multi rs).exitCode =
      if ∃ pr ∈ rs, pr.2 = ([] : List String) then 4 else 0 := by
  induction rs with
  | nil => simp [report]
  | cons pr rest ih =>
    obtain ⟨p0, t0⟩ := pr
    by_cases h0 : t0 = []
    · rw [show ((p0, t0) :: rest) = ((p0, []) :: rest) by rw [h0]]
      simp only [report, ih]
      by_cases hrest : ∃ pr ∈ rest, pr.2 = ([] : List String)
      · simp [hrest]
      · simp [hrest]
    · simp only [report, if_neg h0, ih]
      by_cases hrest : ∃ pr ∈ rest, pr.2 = ([] : List String)
      · have : ∃ pr ∈ (p0, t0) :: rest, pr.2 = ([] : List String) := by
          rcases hrest with ⟨pr, hm, he⟩
          exact ⟨pr, List.mem_cons_of_mem _ hm, he⟩
        simp only [if_pos hrest, if_pos this]
      · have : ¬∃ pr ∈ (p0, t0) :: rest, pr.2 = ([] : List String) := by
          rintro ⟨pr, hm, he⟩
          rcases List.mem_cons.1 hm with rfl | hm'
          · exact h0 he
          · exact hrest ⟨pr, hm', he⟩
        simp only [if_neg hrest, if_neg this]

theorem report_stdout_contains (w : World) («copy» multi : Bool)
    (rs : List (String × List String)) (path : String) (texts : List String)
    (hmem : (path, texts) ∈ rs) (hne : texts ≠ []) :
    ∃ pre post, (report w copy multi rs).stdout =
      pre ++ orderTexts w.isUrl texts ++ post := by
  induction rs with
  | nil => exact absurd hmem (List.not_mem_nil _)
  | cons pr rest ih =>
    obtain ⟨p0, t0⟩ := pr
    rcases List.mem_cons.1 hmem with heq | htail
    · have hpt : path = p0 ∧ texts = t0 := Prod.mk.injEq .. ▸ heq
      obtain ⟨rfl, rfl⟩ := hpt
      refine ⟨if multi = true then ["--- " ++ path ++ " ---"] else [],
        (report w copy multi rest).stdout, ?_⟩
      simp [report, hne, List.append_assoc]
    · rcases ih htail with ⟨pre, post, hp⟩
      by_cases h0 : t0 = []
      · refine ⟨(p0 ++ ": no QR found") :: pre, post, ?_⟩
        rw [show ((p0, t0) :: rest) = ((p0, []) :: rest) by rw [h0]]
        simp [report, hp]
      · refine ⟨(if multi = true then ["--- " ++ p0 ++ " ---"] else []) ++
          orderTexts w.isUrl t0 ++ pre, post, ?_⟩
        simp [report, h0, hp, List.append_assoc]

theorem report_clipboard_contains (w : World) («copy» multi : Bool)
    (rs : List (String × List String)) (path : String) (texts : List String)
    (hmem : (path, texts) ∈ rs) (hne : texts ≠ [])
    (hc : copy = true) (hpc : w.pyperclipAvailable = true)
    (h : String) (hh : (orderTexts w.isUrl texts).head? = some h) :
    h ∈ (report w copy multi rs).clipboard := by
  induction rs with
  | nil => exact absurd hmem (List.not_mem_nil _)
  | cons pr rest ih =>
    obtain ⟨p0, t0⟩ := pr
    rcases List.mem_cons.1 hmem with heq | htail
    · have hpt : path = p0 ∧ texts = t0 := Prod.mk.injEq .. ▸ heq
      obtain ⟨rfl, rfl⟩ := hpt
      simp only [report, if_neg hne]
      simp only [if_pos (And.intro hc hpc)]
      apply List.mem_append_left
      rw [hh]
      exact List.mem_singleton.2 rfl
    · have hmemtail := ih htail
      by_cases h0 : t0 = []
      · rw [show ((p0, t0) :: rest) = ((p0, []) :: rest) by rw [h0]]
        simpa [report] using hmemtail
      · simp only [report, if_neg h0]
        exact List.mem_append_right _ hmemtail

/-- C1: decoding an image path invokes OpenCV first; when OpenCV yields a
non-empty text list, `decode_from_image_path` returns exactly those texts and
ZXing is never invoked; ZXing is invoked if and only if the OpenCV attempt
yields an empty result, in which case the ZXing texts are returned. -/
theorem c1_opencv_first_zxing_fallback (env : FileEnv) :
    (decodeTrace env).2.head? = some Backend.opencv ∧
    (try_decode_opencv env.opencv ≠ [] →
      decode_from_image_path env = try_decode_opencv env.opencv ∧
      Backend.zxing ∉ (decodeTrace env).2) ∧
    (Backend.zxing ∈ (decodeTrace env).2 ↔ try_decode_opencv env.opencv = []) ∧
    (try_decode_opencv env.opencv = [] →
      decode_from_image_path env = try_decode_zxing env.zxing) := by
  by_cases h : try_decode_opencv env.opencv = []
  · simp [decodeTrace, decode_from_image_path, h]
  · simp [decodeTrace, decode_from_image_path, h]

theorem c1_witness :
    decode_from_image_path fileEnvEx = try_decode_opencv fileEnvEx.opencv ∧
    Backend.zxing ∉ (decodeTrace fileEnvEx).2 :=
  (c1_opencv_first_zxing_fallback fileEnvEx).2.1 (by decide)

/-- C2: on any backend environment with the backend and its image available,
the list returned by `try_decode_opencv` (resp. `try_decode_zxing`) contains no
empty string and no duplicate, and lists exactly the non-empty raw backend
strings in order of their first occurrence in the raw output. -/
theorem c2_backend_outputs_dedupped (envO : OpenCVEnv) (envZ : ZXingEnv)
    (hcv : envO.cv2Available = true) (himg : envO.imgLoaded = true)
    (hz : envZ.zxingAvailable = true) (hp : envZ.pilLoaded = true) :
    dedupOutputSpec (opencvRaw envO) (try_decode_opencv envO) ∧
    dedupOutputSpec (zxingRaw envZ) (try_decode_zxing envZ) := by
  rw [try_decode_opencv_eq envO hcv himg, try_decode_zxing_eq envZ hz hp]
  exact ⟨dedupOutputSpec_firstOccur _, dedupOutputSpec_firstOccur _⟩

theorem c2_witness :
    dedupOutputSpec (opencvRaw envOEx) (try_decode_opencv envOEx) ∧
    dedupOutputSpec (zxingRaw envZEx) (try_decode_zxing envZEx) :=
  c2_backend_outputs_dedupped envOEx envZEx rfl rfl rfl rfl

/-- C3: the URL-first ordering used by `main` puts exactly the strings matched
by the URL predicate first, then the unmatched ones, each group keeping the
relative order it had in the decoded list. -/
theorem c3_url_first_order (isUrl : String → Bool) (texts : List String) :
    orderTexts isUrl texts =
      texts.filter isUrl ++ texts.filter (fun t => !(isUrl t)) ∧
    (∀ u ∈ texts.filter isUrl, isUrl u = true) ∧
    (∀ r ∈ texts.filter (fun t => !(isUrl t)), isUrl r = false) := by
  refine ⟨orderTexts_eq isUrl texts, fun u hu => (List.mem_filter.1 hu).2, ?_⟩
  intro r hr
  have := (List.mem_filter.1 hr).2
  simpa using this

theorem c3_witness :
    orderTexts (fun t => decide (t = "www.x.com")) ["a", "www.x.com", "b"] =
      (["a", "www.x.com", "b"].filter (fun t => decide (t = "www.x.com"))) ++
      (["a", "www.x.com", "b"].filter (fun t => !(decide (t = "www.x.com")))) ∧
    (∀ u ∈ ["a", "www.x.com", "b"].filter (fun t => decide (t = "www.x.com")),
      (fun t => decide (t = "www.x.com")) u = true) ∧
    (∀ r ∈ ["a", "www.x.com", "b"].filter (fun t => !(decide (t = "www.x.com"))),
      (fun t => decide (t = "www.x.com")) r = false) :=
  c3_url_first_order (fun t => decide (t = "www.x.com")) ["a", "www.x.com", "b"]

/-- C4: for every gathered file whose decoded text list is non-empty, the
file-mode `main` prints its URL-first ordered texts contiguously to stdout,
and under `--copy` with pyperclip available the first string of that ordered
list is passed to the clipboard. -/
theorem c4_prints_and_copies (paths : List String) («copy» : Bool) (w : World)
    (path : String) (texts : List String)
    (hmem : (path, texts) ∈ (gather w paths).2) (hne : texts ≠ []) :
    (∃ pre post, (mainFile paths copy w).stdout =
      pre ++ orderTexts w.isUrl texts ++ post) ∧
    (copy = true → w.pyperclipAvailable = true →
      ∃ h, (orderTexts w.isUrl texts).head? = some h ∧
        h ∈ (mainFile paths copy w).clipboard) := by
  have hpaths : paths ≠ [] := by
    intro hc; subst hc; simp [gather] at hmem
  constructor
  · rw [mainFile, if_neg hpaths]
    exact report_stdout_contains w copy _ _ path texts hmem hne
  · intro hc hpc
    have hhd : ∃ h, (orderTexts w.isUrl texts).head? = some h := by
      cases hh : orderTexts w.isUrl texts with
      | nil => exact absurd hh (orderTexts_ne_nil w.isUrl texts hne)
      | cons a l => exact ⟨a, rfl⟩
    rcases hhd with ⟨h, hh⟩
    refine ⟨h, hh, ?_⟩
    rw [mainFile, if_neg hpaths]
    exact report_clipboard_contains w copy _ _ path texts hmem hne hc hpc h hh

theorem c4_witness :
    (∃ pre post, (mainFile ["a.png"] true wEx).stdout =
      pre ++ orderTexts wEx.isUrl ["hello", "www.x.com"] ++ post) ∧
    ∃ h, (orderTexts wEx.isUrl ["hello", "www.x.com"]).head? = some h ∧
      h ∈ (mainFile ["a.png"] true wEx).clipboard :=
  ⟨(c4_prints_and_copies ["a.png"] true wEx "a.png" ["hello", "www.x.com"]
      (by decide) (by decide)).1,
   (c4_prints_and_copies ["a.png"] true wEx "a.png" ["hello", "www.x.com"]
      (by decide) (by decide)).2 rfl rfl⟩

/-- C5: a missing argument path produces the `"<path>: not found"` stderr line,
is never decoded, and does not affect the exit code: a run whose given paths
are all missing exits with code 0. -/
theorem c5_missing_path (paths : List String) («copy» : Bool) (w : World)
    (p : String) (hmem : p ∈ paths) (hmiss : w.pathExists p = false) :
    (p ++ ": not found") ∈ (mainFile paths copy w).stderr ∧
    (∀ texts, (p, texts) ∉ (gather w paths).2) ∧
    ((∀ q ∈ paths, w.pathExists q = false) →
      (mainFile paths copy w).exitCode = 0) := by
  have hpaths : paths ≠ [] := by
    intro hc; subst hc; exact absurd hmem (List.not_mem_nil p)
  refine ⟨?_, ?_, ?_⟩
  · rw [mainFile, if_neg hpaths]
    show (p ++ ": not found") ∈ (gather w paths).1 ++ _
    apply List.mem_append_left
    rw [gather_fst]
    exact List.mem_map.2 ⟨p, List.mem_filter.2 ⟨hmem, by simp [hmiss]⟩, rfl⟩
  · intro texts hc
    rw [gather_snd] at hc
    rcases List.mem_map.1 hc with ⟨q, hq, he⟩
    have hqp : q = p := congrArg Prod.fst he
    subst hqp
    have := (List.mem_filter.1 hq).2
    rw [hmiss] at this
    exact Bool.false_ne_true this
  · intro hall
    rw [mainFile, if_neg hpaths]
    show (report w copy _ (gather w paths).2).exitCode = 0
    rw [report_exitCode]
    have hg : (gather w paths).2 = [] := by
      rw [gather_snd]
      have hf : paths.filter w.pathExists = [] := by
        rw [List.filter_eq_nil_iff]
        intro q hq
        rw [hall q hq]
        exact Bool.false_ne_true
      rw [hf]
      rfl
    rw [hg]
    simp

theorem c5_witness :
    ("missing" ++ ": not found") ∈ (mainFile ["missing"] false wEx).stderr ∧
    (∀ texts, ("missing", texts) ∉ (gather wEx ["missing"]).2) ∧
    (mainFile ["missing"] false wEx).exitCode = 0 :=
  ⟨(c5_missing_path ["missing"] false wEx "missing" (by decide) (by decide)).1,
   (c5_missing_path ["missing"] false wEx "missing" (by decide) (by decide)).2.1,
   (c5_missing_path ["missing"] false wEx "missing" (by decide) (by decide)).2.2
     (by decide)⟩

/-- C6: decoding in file mode has no persistent effect and no state carried
from one path to the next: the gathered results are a pure per-path map over
the existing paths, and the stderr lines a pure per-path map over the missing
ones; the only outputs are the `Report` streams. -/
theorem c6_no_cross_path_state (w : World) (paths : List String) :
    (gather w paths).2 = (paths.filter w.pathExists).map
      (fun p => (p, decode_from_image_path (w.fileEnv p))) ∧
    (gather w paths).1 = (paths.filter (fun p => !(w.pathExists p))).map
      (fun p => p ++ ": not found") :=
  ⟨gather_snd w paths, gather_fst w paths⟩

/-- C7: file-mode exit codes: 1 when no paths are given, otherwise 4 exactly
when some existing path decodes to an empty text list, and 0 in every other
case. -/
theorem c7_exit_codes (paths : List String) («copy» : Bool) (w : World) :
    (paths = [] → (mainFile paths copy w).exitCode = 1) ∧
    (paths ≠ [] →
      (((mainFile paths copy w).exitCode = 4) ↔
        ∃ p ∈ paths, w.pathExists p = true ∧
          decode_from_image_path (w.fileEnv p) = []) ∧
      ((mainFile paths copy w).exitCode = 4 ∨
        (mainFile paths copy w).exitCode = 0)) := by
  constructor
  · intro h; subst h; rfl
  · intro hpaths
    have hex : (mainFile paths copy w).exitCode =
        if ∃ pr ∈ (gather w paths).2, pr.2 = ([] : List String) then 4 else 0 := by
      rw [mainFile, if_neg hpaths]
      show (report w copy _ (gather w paths).2).exitCode = _
      rw [report_exitCode]
    have hiff : (∃ pr ∈ (gather w paths).2, pr.2 = ([] : List String)) ↔
        ∃ p ∈ paths, w.pathExists p = true ∧
          decode_from_image_path (w.fileEnv p) = [] := by
      rw [gather_snd]
      constructor
      · rintro ⟨pr, hm, he⟩
        rcases List.mem_map.1 hm with ⟨q, hq, rfl⟩
        exact ⟨q, (List.mem_filter.1 hq).1, (List.mem_filter.1 hq).2, he⟩
      · rintro ⟨p, hp, hexists, hdec⟩
        exact ⟨(p, decode_from_image_path (w.fileEnv p)),
          List.mem_map.2 ⟨p, List.mem_filter.2 ⟨hp, hexists⟩, rfl⟩, hdec⟩
    by_cases hc : ∃ pr ∈ (gather w paths).2, pr.2 = ([] : List String)
    · rw [hex, if_pos hc]
      exact ⟨⟨fun _ => hiff.1 hc, fun _ => rfl⟩, Or.inl rfl⟩
    · rw [hex, if_neg hc]
      refine ⟨⟨fun h04 => absurd h04 (by norm_num), fun hx => absurd (hiff.2 hx) hc⟩,
        Or.inr rfl⟩

theorem c7_witness :
    (mainFile [] false wEmpty).exitCode = 1 ∧
    (mainFile ["b.png"] false wEmpty).exitCode = 4 ∧
    (mainFile ["a.png"] false wEx).exitCode = 0 := by
  refine ⟨(c7_exit_codes [] false wEmpty).1 rfl, ?_, ?_⟩
  · exact ((c7_exit_codes ["b.png"] false wEmpty).2 (by decide)).1.2
      ⟨"b.png", by decide, by decide, by decide⟩
  · rcases ((c7_exit_codes ["a.png"] false wEx).2 (by decide)).2 with h4 | h0
    · exact absurd (((c7_exit_codes ["a.png"] false wEx).2 (by decide)).1.1 h4)
        (by decide)
    · exact h0

/-- C8: the two backend wrappers are total at their interface: every modelled
exception (a `none` call outcome) and every unavailability case yields the
empty list, and `decode_from_image_path` always returns one of the two backend
lists, never an error. -/
theorem c8_total_backends (envO : OpenCVEnv) (envZ : ZXingEnv) (env : FileEnv) :
    ((envO.cv2Available = false ∨ envO.imgLoaded = false) →
      try_decode_opencv envO = []) ∧
    (envO.multiResult = none → envO.singleResult = none →
      try_decode_opencv envO = []) ∧
    ((envZ.zxingAvailable = false ∨ envZ.pilLoaded = false) →
      try_decode_zxing envZ = []) ∧
    (envZ.results = none → try_decode_zxing envZ = []) ∧
    (decode_from_image_path env = try_decode_opencv env.opencv ∨
      decode_from_image_path env = try_decode_zxing env.zxing) := by
  refine ⟨?_, ?_, ?_, ?_, ?_⟩
  · intro h
    rcases h with h | h
    · rw [try_decode_opencv, if_pos (Or.inl (by simp [h]))]
    · rw [try_decode_opencv, if_pos (Or.inr (by simp [h]))]
  · intro hm hs
    rw [try_decode_opencv]
    by_cases hav : ¬envO.cv2Available ∨ ¬envO.imgLoaded
    · rw [if_pos hav]
    · rw [if_neg hav]
      have hraw : opencvRaw envO = [] := by
        rw [opencvRaw, hm, hs]
        simp
      rw [hraw]
      rfl
  · intro h
    rcases h with h | h
    · rw [try_decode_zxing, if_pos (by simp [h])]
    · rw [try_decode_zxing, if_pos (by simp [h])]
  · intro hr
    rw [try_decode_zxing]
    by_cases hav : ¬(envZ.zxingAvailable ∧ envZ.pilLoaded)
    · rw [if_pos hav]
    · rw [if_neg hav, hr]
  · rw [decode_from_image_path]
    by_cases h : try_decode_opencv env.opencv = []
    · right; simp [h]
    · left; simp [h]

theorem c8_witness :
    try_decode_opencv envOEmpty = [] ∧
    try_decode_opencv ⟨true, true, none, none⟩ = [] ∧
    try_decode_zxing envZEmpty = [] ∧
    try_decode_zxing ⟨true, true, none⟩ = [] ∧
    (decode_from_image_path fileEnvEx = try_decode_opencv fileEnvEx.opencv ∨
      decode_from_image_path fileEnvEx = try_decode_zxing fileEnvEx.zxing) :=
  ⟨(c8_total_backends envOEmpty envZEmpty fileEnvEx).1 (Or.inl rfl),
   (c8_total_backends ⟨true, true, none, none⟩ envZEmpty fileEnvEx).2.1 rfl rfl,
   (c8_total_backends envOEmpty envZEmpty fileEnvEx).2.2.1 (Or.inl rfl),
   (c8_total_backends envOEmpty ⟨true, true, none⟩ fileEnvEx).2.2.2.1 rfl,
   (c8_total_backends envOEmpty envZEmpty fileEnvEx).2.2.2.2⟩

/-- C9: the URL-first ordered list is a permutation of the decoded list, and on
a deduplicated decoded list every text appears in it exactly once. -/
theorem c9_ordered_perm (isUrl : String → Bool) (texts : List String) :
    List.Perm (orderTexts isUrl texts) texts ∧
    (texts.Nodup → ∀ t ∈ texts, (orderTexts isUrl texts).count t = 1) := by
  refine ⟨orderTexts_perm isUrl texts, fun hnd t ht => ?_⟩
  rw [(orderTexts_perm isUrl texts).count_eq]
  exact List.count_eq_one_of_mem hnd ht

theorem c9_witness :
    List.Perm (orderTexts (fun t => decide (t = "www.x.com"))
      ["a", "www.x.com", "b"]) ["a", "www.x.com", "b"] ∧
    ∀ t ∈ ["a", "www.x.com", "b"],
      (orderTexts (fun t => decide (t = "www.x.com"))
        ["a", "www.x.com", "b"]).count t = 1 :=
  ⟨(c9_ordered_perm (fun t => decide (t = "www.x.com")) ["a", "www.x.com", "b"]).1,
   (c9_ordered_perm (fun t => decide (t = "www.x.com")) ["a", "www.x.com", "b"]).2
     (by decide)⟩

end QrLocalDecoder
